import Mathlib

/-!
Verification of the seed-loading and sequential-transactional-execution
pipeline of grav-lsm (src/internal/database/seeder.go).

The Go code is embedded shallowly:

* Go error values built with fmt.Errorf are the inductive GoErr; the %w verb
  becomes the wrap constructor.
* The filesystem is a parameter: ioutil.ReadDir's outcome is a value of type
  Except GoErr (List Entry), where each Entry carries the base name that
  ReadDir reports together with the outcome ioutil.ReadFile would give for
  that entry.  Go's ReadDir returns entries sorted by filename; the model
  allows an arbitrary enumeration order, which only makes the theorems about
  order-independence stronger.
* The database/sql handle is a parameter DBModel σ over an abstract committed
  state σ: Begin yields the transaction's working state, Exec runs SQL inside
  it, Commit publishes a new committed state, and Rollback discards the
  transaction.  Work in an uncommitted transaction never changes the
  committed state, which is exactly the contract of sql.Tx.
* Go strings compare byte-wise; for valid UTF-8 the byte order coincides with
  the code-point order, so names are compared through their Char lists.
-/

set_option maxRecDepth 8192

namespace GravLsm

/-- A Go error value: a base message, or a message wrapping an inner error
(fmt.Errorf with the %w verb). -/
inductive GoErr where
  | base (msg : String)
  | wrap (msg : String) (inner : GoErr)
deriving DecidableEq, Repr

namespace GoErr

/-- All message strings carried by an error, outermost first. -/
def msgs : GoErr → List String
  | base m => [m]
  | wrap m e => m :: e.msgs

/-- An error mentions a string when the string occurs inside one of its
messages; used to state which Seed an error names. -/
def mentions (e : GoErr) (s : String) : Prop :=
  ∃ m ∈ e.msgs, s.data <:+: m.data

instance (e : GoErr) (s : String) : Decidable (e.mentions s) :=
  List.decidableBEx _ e.msgs

end GoErr

/-- seeder.go lines 12-16: a single seed file. -/
structure Seed where
  Name : String
  SQL : String
deriving DecidableEq, Repr

/-- seeder.go lines 18-22: the Seeder owns the loaded seeds.  The borrowed
db handle is not stored here; it is passed to the run operation as a
DBModel parameter. -/
structure Seeder where
  seeds : List Seed
deriving DecidableEq, Repr

/-- Go's unicode.IsSpace on a code point: the characters strings.TrimSpace
strips (space, tab, newline, vertical tab, form feed, carriage return, NEL,
NBSP and the Unicode White_Space code points). -/
def goIsSpace (c : Char) : Bool :=
  let n := c.toNat
  n == 0x20 || (0x9 ≤ n && n ≤ 0xD) || n == 0x85 || n == 0xA0 ||
    n == 0x1680 || (0x2000 ≤ n && n ≤ 0x200A) || n == 0x2028 ||
    n == 0x2029 || n == 0x202F || n == 0x205F || n == 0x3000

/-- Go's strings.TrimSpace: drop leading and trailing whitespace. -/
def trimSpace (s : String) : String :=
  String.mk (((s.data.dropWhile goIsSpace).reverse.dropWhile goIsSpace).reverse)

/-- Go's filepath.Ext on a base name (directory-entry names never contain a
path separator): the suffix of the name starting at its last dot, or the
empty string when the name has no dot. -/
def goExt (s : String) : String :=
  let r := s.data.reverse
  if r.contains '.' then
    String.mk ((r.takeWhile (fun c => c ≠ '.') ++ ['.']).reverse)
  else ""

/-- One directory entry as the Seed Loader sees it: the base name reported by
ioutil.ReadDir, together with the outcome ioutil.ReadFile would produce for
the joined path dir/name. -/
structure Entry where
  name : String
  content : Except GoErr String
deriving Repr

/-- seeder.go lines 85-95, parseSeedFile: read the file and build the Seed.
The Name is filepath.Base of filepath.Join dir name, which for a
directory-entry base name is the entry name itself; the SQL is the raw
content with surrounding whitespace trimmed.  A read failure is returned
unwrapped. -/
def parseSeedFile (e : Entry) : Except GoErr Seed :=
  match e.content with
  | .error err => .error err
  | .ok c => .ok ⟨e.name, trimSpace c⟩

/-- The comparison sort.Slice is given in seeder.go lines 47-49, on the
underlying char lists (Go compares strings byte-wise, which on valid UTF-8
is the code-point lexicographic order). -/
def seedLT (a b : Seed) : Prop := a.Name.data < b.Name.data

/-- The non-strict counterpart of seedLT; a slice is sorted for sort.Slice
exactly when successive elements are related by it. -/
def seedLE (a b : Seed) : Prop := a.Name.data ≤ b.Name.data

instance : DecidableRel seedLT := fun a b =>
  inferInstanceAs (Decidable (a.Name.data < b.Name.data))

instance : DecidableRel seedLE := fun a b =>
  inferInstanceAs (Decidable (a.Name.data ≤ b.Name.data))

instance : IsTotal Seed seedLE := ⟨fun a b => le_total a.Name.data b.Name.data⟩

instance : IsTrans Seed seedLE :=
  ⟨fun _ _ _ h h' => le_trans (α := List Char) h h'⟩

instance : IsTrans Seed seedLT :=
  ⟨fun _ _ _ h h' => lt_trans (α := List Char) h h'⟩

instance : IsAntisymm Seed seedLT :=
  ⟨fun _ _ h h' => absurd h' (lt_asymm (α := List Char) h)⟩

/-- The sort of seeder.go lines 47-49: sort.Slice over the whole seeds slice
with less i j when seeds i's Name is below seeds j's Name.  sort.Slice
guarantees a permutation of the slice that is sorted for the comparison;
insertion sort by the matching non-strict order realises that contract. -/
def sortSeeds (l : List Seed) : List Seed := List.insertionSort seedLE l

/-- seeder.go lines 36-44, the loop of LoadSeeds over the entries ReadDir
returned: entries whose extension is exactly ".sql" are parsed and appended
one by one; the first parse failure stops the loop at once, keeping the
seeds appended so far and wrapping the error with the failing file's name. -/
def loadLoop (seeds : List Seed) : List Entry → Option GoErr × List Seed
  | [] => (none, seeds)
  | f :: rest =>
    if goExt f.name = ".sql" then
      match parseSeedFile f with
      | .error err =>
        (some (.wrap ("failed to parse seed file " ++ f.name) err), seeds)
      | .ok sd => loadLoop (seeds ++ [sd]) rest
    else loadLoop seeds rest

/-- seeder.go lines 29-53, LoadSeeds: a ReadDir failure is wrapped and the
Seeder is left untouched; otherwise the loop appends the parsed seeds to the
existing ones, and only a fully successful pass reaches the final sort of
the whole seeds slice.  The returned pair is the Go error result together
with the Seeder as the call leaves it. -/
def LoadSeeds (s : Seeder) (dir : Except GoErr (List Entry)) :
    Option GoErr × Seeder :=
  match dir with
  | .error e => (some (.wrap "failed to read seeds directory" e), s)
  | .ok files =>
    match loadLoop s.seeds files with
    | (some e, sds) => (some e, ⟨sds⟩)
    | (none, sds) => (none, ⟨sortSeeds sds⟩)

/-- The seeds a list of entries contributes on a fully successful pass: each
entry with extension exactly ".sql" and readable content yields one Seed. -/
def okSeeds (entries : List Entry) : List Seed :=
  entries.filterMap fun e =>
    if goExt e.name = ".sql" then
      match e.content with
      | .ok c => some ⟨e.name, trimSpace c⟩
      | .error _ => none
    else none

/-- The database/sql operations executeSeed uses, over an abstract committed
state σ.  Begin opens a transaction on the committed state and yields its
working state; exec runs SQL inside the transaction; commit turns the
working state into the new committed state; rollback discards the
transaction and may itself fail.  Uncommitted working states never affect
the committed state, mirroring sql.Tx. -/
structure DBModel (σ : Type) where
  begin : σ → Except GoErr σ
  exec : String → σ → Except GoErr σ
  commit : σ → Except GoErr σ
  rollback : σ → Except GoErr Unit

/-- seeder.go lines 65-82, executeSeed: begin a transaction, execute the
seed's SQL, commit.  A begin failure is wrapped without the seed's name; an
execution failure triggers tx.Rollback() whose result the source discards,
and is wrapped with the seed's name; a commit failure is wrapped with the
seed's name.  On every error path the committed state is still the input
state: nothing was committed. -/
def executeSeed (db : DBModel σ) (c : σ) (sd : Seed) : Except GoErr σ :=
  match db.begin c with
  | .error e => .error (.wrap "error starting transaction" e)
  | .ok t =>
    match db.exec sd.SQL t with
    | .error e =>
      let _ := db.rollback t
      .error (.wrap ("error executing seed " ++ sd.Name) e)
    | .ok t2 =>
      match db.commit t2 with
      | .error e => .error (.wrap ("error committing seed " ++ sd.Name) e)
      | .ok c2 => .ok c2

/-- seeder.go lines 55-62, the loop of Seed(): run executeSeed on each seed
in stored order, stopping at the first failure.  The result is the Go error
result, the committed state after the call, and the trace of Names on which
executeSeed was invoked, in invocation order. -/
def seedLoop (db : DBModel σ) (c : σ) :
    List Seed → Option GoErr × σ × List String
  | [] => (none, c, [])
  | sd :: rest =>
    match executeSeed db c sd with
    | .error e => (some e, c, [sd.Name])
    | .ok c2 =>
      let r := seedLoop db c2 rest
      (r.1, r.2.1, sd.Name :: r.2.2)

/-- seeder.go lines 55-62, the method Seed() itself: it only reads s.seeds.
The Seeder after the call is returned alongside the loop's result so that
the method's effect on the Seeder is part of the model. -/
def Seeder.Seed (s : Seeder) (db : DBModel σ) (c : σ) :
    (Option GoErr × σ × List String) × Seeder :=
  (seedLoop db c s.seeds, s)

/-- Whether reading this entry's file succeeds. -/
def Entry.readable (e : Entry) : Bool :=
  match e.content with
  | .ok _ => true
  | .error _ => false

/-- A database on which every SQL execution fails and the subsequent
rollback fails as well; counts nothing, the committed state is a bare Nat. -/
def dbRollbackFail : DBModel Nat where
  begin c := .ok c
  exec _ _ := .error (.base "bad sql")
  commit t := .ok t
  rollback _ := .error (.base "rollback failed")

/-- A database that refuses to start any transaction. -/
def dbBeginFail : DBModel Nat where
  begin _ := .error (.base "db down")
  exec _ t := .ok t
  commit t := .ok t
  rollback _ := .ok ()

/-- A database whose committed state is the list of executed statements;
the statement "P" fails, everything else succeeds. -/
def dbRunDemo : DBModel (List String) where
  begin c := .ok c
  exec q t := if q = "P" then .error (.base "bad column") else .ok (t ++ [q])
  commit t := .ok t
  rollback _ := .ok ()

/-! Helper lemmas. -/

/-- A wrapped error mentions any infix of its outer message. -/
theorem GoErr.mentions_wrap (m n : String) (e : GoErr)
    (h : n.data <:+: m.data) : (GoErr.wrap m e).mentions n :=
  ⟨m, by simp [msgs], h⟩

/-- The name is an infix of a message that ends with it. -/
theorem name_infix_append (s n : String) : n.data <:+: (s ++ n).data := by
  have h : (s ++ n).data = s.data ++ n.data := rfl
  rw [h]
  exact (List.suffix_append s.data n.data).isInfix

/-- Dropping a satisfying front segment does not change the last element of
a list, as long as something is left. -/
theorem getLast?_dropWhile_of_ne_nil (p : α → Bool) (l : List α)
    (h : l.dropWhile p ≠ []) : (l.dropWhile p).getLast? = l.getLast? := by
  induction l with
  | nil => simp at h
  | cons a t ih =>
    rw [List.dropWhile_cons] at h ⊢
    by_cases hp : p a
    · simp only [hp, if_true] at h ⊢
      rw [ih h]
      cases t with
      | nil => simp [List.dropWhile] at h
      | cons b u => rw [List.getLast?_cons_cons]
    · simp [hp]

/-- One loop step: a .sql entry that reads fine is parsed and appended. -/
theorem loadLoop_cons_sql_ok (acc : List Seed) (f : Entry) (rest : List Entry)
    (c : String) (hsql : goExt f.name = ".sql") (hc : f.content = .ok c) :
    loadLoop acc (f :: rest) = loadLoop (acc ++ [⟨f.name, trimSpace c⟩]) rest := by
  simp [loadLoop, hsql, parseSeedFile, hc]

/-- One loop step: an entry whose extension is not ".sql" is skipped. -/
theorem loadLoop_cons_not_sql (acc : List Seed) (f : Entry)
    (rest : List Entry) (hsql : ¬ goExt f.name = ".sql") :
    loadLoop acc (f :: rest) = loadLoop acc rest := by
  simp [loadLoop, hsql]

/-- One loop step: a .sql entry that cannot be read stops the loop with the
wrapped read error, keeping the seeds appended so far. -/
theorem loadLoop_cons_sql_err (acc : List Seed) (f : Entry)
    (rest : List Entry) (err : GoErr) (hsql : goExt f.name = ".sql")
    (hc : f.content = .error err) :
    loadLoop acc (f :: rest) =
      (some (.wrap ("failed to parse seed file " ++ f.name) err), acc) := by
  simp [loadLoop, hsql, parseSeedFile, hc]

theorem okSeeds_cons_sql_ok (f : Entry) (rest : List Entry) (c : String)
    (hsql : goExt f.name = ".sql") (hc : f.content = .ok c) :
    okSeeds (f :: rest) = ⟨f.name, trimSpace c⟩ :: okSeeds rest := by
  simp [okSeeds, hsql, hc]

theorem okSeeds_cons_not_sql (f : Entry) (rest : List Entry)
    (hsql : ¬ goExt f.name = ".sql") :
    okSeeds (f :: rest) = okSeeds rest := by
  simp [okSeeds, hsql]

theorem okSeeds_cons_sql_err (f : Entry) (rest : List Entry) (err : GoErr)
    (hsql : goExt f.name = ".sql") (hc : f.content = .error err) :
    okSeeds (f :: rest) = okSeeds rest := by
  simp [okSeeds, hsql, hc]

/-- When every selected entry is readable the loop succeeds and appends
exactly the seeds of the selected entries, in enumeration order. -/
theorem loadLoop_all_ok (entries : List Entry)
    (h : ∀ e ∈ entries, goExt e.name = ".sql" → e.readable = true) :
    ∀ acc, loadLoop acc entries = (none, acc ++ okSeeds entries) := by
  induction entries with
  | nil => intro acc; simp [loadLoop, okSeeds]
  | cons f rest ih =>
    intro acc
    have hrest : ∀ e ∈ rest, goExt e.name = ".sql" → e.readable = true :=
      fun e he hx => h e (by simp [he]) hx
    by_cases hsql : goExt f.name = ".sql"
    · have hr : f.readable = true := h f (by simp) hsql
      cases hc : f.content with
      | error err => simp [Entry.readable, hc] at hr
      | ok c =>
        rw [loadLoop_cons_sql_ok acc f rest c hsql hc, ih hrest,
          okSeeds_cons_sql_ok f rest c hsql hc, List.append_assoc]
        rfl
    · rw [loadLoop_cons_not_sql acc f rest hsql, ih hrest,
        okSeeds_cons_not_sql f rest hsql]

/-- When the selected entries before f are readable and f is a selected
entry whose read fails, the loop stops at f with the wrapped error, keeping
the seeds of the earlier entries. -/
theorem loadLoop_stops_at_error (pre : List Entry) (f : Entry)
    (post : List Entry) (err : GoErr)
    (hpre : ∀ e ∈ pre, goExt e.name = ".sql" → e.readable = true)
    (hsql : goExt f.name = ".sql") (hc : f.content = .error err) :
    ∀ acc, loadLoop acc (pre ++ f :: post) =
      (some (.wrap ("failed to parse seed file " ++ f.name) err),
        acc ++ okSeeds pre) := by
  induction pre with
  | nil =>
    intro acc
    rw [List.nil_append, loadLoop_cons_sql_err acc f post err hsql hc]
    simp [okSeeds]
  | cons g rest ih =>
    intro acc
    have hrest : ∀ e ∈ rest, goExt e.name = ".sql" → e.readable = true :=
      fun e he hx => hpre e (by simp [he]) hx
    by_cases hg : goExt g.name = ".sql"
    · have hr : g.readable = true := hpre g (by simp) hg
      cases hgc : g.content with
      | error e2 => simp [Entry.readable, hgc] at hr
      | ok c2 =>
        rw [List.cons_append, loadLoop_cons_sql_ok acc g _ c2 hg hgc,
          ih hrest, okSeeds_cons_sql_ok g rest c2 hg hgc, List.append_assoc]
        rfl
    · rw [List.cons_append, loadLoop_cons_not_sql acc g _ hg, ih hrest,
        okSeeds_cons_not_sql g rest hg]

/-! Theorems for the claims. -/

/-- Claim C5: when the directory listing fails, LoadSeeds returns a
directory-read error and the Seeder's seeds sequence is exactly what it was
before the call. -/
theorem LoadSeeds_dir_error_frame (s : Seeder) (e : GoErr) :
    LoadSeeds s (.error e) =
      (some (.wrap "failed to read seeds directory" e), s) := rfl

/-- Claim C10: Seed() never modifies the seeds sequence, whatever the
database does and whatever state it starts in, and a subsequent run on the
returned Seeder behaves exactly as a run on the original Seeder. -/
theorem Seed_run_preserves_seeds {σ : Type} (db : DBModel σ) (s : Seeder)
    (c : σ) :
    (Seeder.Seed s db c).2 = s ∧
      ∀ (db2 : DBModel σ) (c2 : σ),
        Seeder.Seed (Seeder.Seed s db c).2 db2 c2 = Seeder.Seed s db2 c2 :=
  ⟨rfl, fun _ _ => rfl⟩

/-- Claim C8: a successfully loaded file yields a Seed whose Name is the
file's base name and whose SQL is the raw content with some all-whitespace
leading segment and all-whitespace trailing segment removed, the retained
middle being preserved verbatim and neither starting nor ending in
whitespace. -/
theorem parseSeedFile_round_trip (n c : String) :
    ∃ sd, parseSeedFile ⟨n, .ok c⟩ = .ok sd ∧ sd.Name = n ∧
      ∃ pre sfx, (∀ x ∈ pre, goIsSpace x = true) ∧
        (∀ x ∈ sfx, goIsSpace x = true) ∧
        c.data = pre ++ sd.SQL.data ++ sfx ∧
        (∀ x, sd.SQL.data.head? = some x → goIsSpace x = false) ∧
        (∀ x, sd.SQL.data.getLast? = some x → goIsSpace x = false) := by
  refine ⟨⟨n, trimSpace c⟩, rfl, rfl,
    c.data.takeWhile goIsSpace,
    ((c.data.dropWhile goIsSpace).reverse.takeWhile goIsSpace).reverse,
    fun x hx => List.mem_takeWhile_imp hx,
    fun x hx => List.mem_takeWhile_imp (List.mem_reverse.mp hx),
    ?_, ?_, ?_⟩
  · have hsql : (Seed.mk n (trimSpace c)).SQL.data =
        ((c.data.dropWhile goIsSpace).reverse.dropWhile goIsSpace).reverse :=
      rfl
    rw [hsql]
    have h1 : c.data.takeWhile goIsSpace ++ c.data.dropWhile goIsSpace =
        c.data := List.takeWhile_append_dropWhile goIsSpace c.data
    have h2 : (c.data.dropWhile goIsSpace).reverse.takeWhile goIsSpace ++
        (c.data.dropWhile goIsSpace).reverse.dropWhile goIsSpace =
        (c.data.dropWhile goIsSpace).reverse :=
      List.takeWhile_append_dropWhile goIsSpace
        (c.data.dropWhile goIsSpace).reverse
    have h3 : c.data.dropWhile goIsSpace =
        ((c.data.dropWhile goIsSpace).reverse.dropWhile goIsSpace).reverse ++
        ((c.data.dropWhile goIsSpace).reverse.takeWhile goIsSpace).reverse := by
      have := congrArg List.reverse h2
      rw [List.reverse_append, List.reverse_reverse] at this
      exact this.symm
    calc c.data = c.data.takeWhile goIsSpace ++ c.data.dropWhile goIsSpace :=
          h1.symm
      _ = c.data.takeWhile goIsSpace ++
          (((c.data.dropWhile goIsSpace).reverse.dropWhile goIsSpace).reverse
            ++ ((c.data.dropWhile goIsSpace).reverse.takeWhile
              goIsSpace).reverse) := by rw [← h3]
      _ = c.data.takeWhile goIsSpace ++
          ((c.data.dropWhile goIsSpace).reverse.dropWhile goIsSpace).reverse
          ++ ((c.data.dropWhile goIsSpace).reverse.takeWhile
            goIsSpace).reverse := by rw [List.append_assoc]
  · intro x hx
    have hsql : (Seed.mk n (trimSpace c)).SQL.data =
        ((c.data.dropWhile goIsSpace).reverse.dropWhile goIsSpace).reverse :=
      rfl
    rw [hsql, List.head?_reverse] at hx
    have hne : (c.data.dropWhile goIsSpace).reverse.dropWhile goIsSpace
        ≠ [] := by
      intro h0
      rw [h0] at hx
      simp at hx
    rw [getLast?_dropWhile_of_ne_nil goIsSpace _ hne, List.getLast?_reverse]
      at hx
    have := List.head?_dropWhile_not goIsSpace c.data
    rw [hx] at this
    exact this
  · intro x hx
    have hsql : (Seed.mk n (trimSpace c)).SQL.data =
        ((c.data.dropWhile goIsSpace).reverse.dropWhile goIsSpace).reverse :=
      rfl
    rw [hsql, List.getLast?_reverse] at hx
    have := List.head?_dropWhile_not goIsSpace
      (c.data.dropWhile goIsSpace).reverse
    rw [hx] at this
    exact this

/-- Claim C3, counterexample: on a database where the SQL execution fails
and the rollback fails too, executeSeed returns only the execution error
wrapped with the seed's name; the rollback failure is nowhere in the
returned error, so it is not surfaced to the caller. -/
theorem executeSeed_rollback_error_swallowed :
    executeSeed dbRollbackFail 0 ⟨"a.sql", "X"⟩ =
      .error (.wrap "error executing seed a.sql" (.base "bad sql")) ∧
    ¬ (GoErr.wrap "error executing seed a.sql"
        (.base "bad sql")).mentions "rollback failed" := by
  constructor
  · rfl
  · decide

/-- Claim C3 as amended: when the SQL execution of a Seed fails, executeSeed
rolls back and returns an execution error wrapped with the Seed's name, but
the outcome of the rollback itself is discarded: the result is unchanged
under any replacement of the database's rollback behaviour. -/
theorem executeSeed_exec_failure_names_seed {σ : Type} (db : DBModel σ)
    (c t : σ) (sd : Seed) (e : GoErr) (hb : db.begin c = .ok t)
    (hx : db.exec sd.SQL t = .error e) :
    executeSeed db c sd =
      .error (.wrap ("error executing seed " ++ sd.Name) e) ∧
    (GoErr.wrap ("error executing seed " ++ sd.Name) e).mentions sd.Name ∧
    ∀ rb, executeSeed { db with rollback := rb } c sd =
      executeSeed db c sd := by
  refine ⟨?_, ?_, ?_⟩
  · simp [executeSeed, hb, hx]
  · exact GoErr.mentions_wrap _ _ _ (name_infix_append "error executing seed "
      sd.Name)
  · intro rb
    simp [executeSeed, hb, hx]

/-- Witness for C3's amended theorem at a concrete database and seed. -/
theorem executeSeed_exec_failure_names_seed_witness :
    executeSeed dbRollbackFail 0 ⟨"s1.sql", "S"⟩ =
      .error (.wrap ("error executing seed " ++ "s1.sql") (.base "bad sql")) ∧
    (GoErr.wrap ("error executing seed " ++ "s1.sql")
      (.base "bad sql")).mentions "s1.sql" ∧
    ∀ rb, executeSeed { dbRollbackFail with rollback := rb } 0
      ⟨"s1.sql", "S"⟩ = executeSeed dbRollbackFail 0 ⟨"s1.sql", "S"⟩ :=
  executeSeed_exec_failure_names_seed dbRollbackFail 0 0 ⟨"s1.sql", "S"⟩
    (.base "bad sql") rfl rfl

/-- Claim C4, counterexample: with an existing seed named b.sql and a
directory holding only a.sql, LoadSeeds does not leave b.sql in place with
the new seeds appended after it — the whole sequence is re-sorted, so a.sql
ends up first. -/
theorem LoadSeeds_not_append_after_existing :
    (LoadSeeds ⟨[⟨"b.sql", "B"⟩]⟩ (.ok [⟨"a.sql", .ok "A"⟩])).2.seeds ≠
      [⟨"b.sql", "B"⟩] ++ sortSeeds (okSeeds [⟨"a.sql", .ok "A"⟩]) := by
  decide

/-- Claim C4 as amended: a load call on a Seeder that already holds seeds
appends the newly loaded seeds after the existing ones and then sorts the
entire combined sequence ascending by name — repeated loads accumulate, not
replace, but the previous order is not preserved: sorting happens after
appending, over old and new seeds together. -/
theorem LoadSeeds_append_then_sort (s : Seeder) (entries : List Entry)
    (h : ∀ e ∈ entries, goExt e.name = ".sql" → e.readable = true) :
    LoadSeeds s (.ok entries) =
      (none, ⟨sortSeeds (s.seeds ++ okSeeds entries)⟩) := by
  simp [LoadSeeds, loadLoop_all_ok entries h s.seeds]

/-- Witness for C4's amended theorem at a concrete Seeder and directory. -/
theorem LoadSeeds_append_then_sort_witness :
    LoadSeeds ⟨[⟨"b.sql", "B"⟩]⟩ (.ok [⟨"a.sql", .ok "A"⟩]) =
      (none, ⟨sortSeeds ([⟨"b.sql", "B"⟩] ++
        okSeeds [⟨"a.sql", .ok "A"⟩])⟩) :=
  LoadSeeds_append_then_sort ⟨[⟨"b.sql", "B"⟩]⟩ [⟨"a.sql", .ok "A"⟩]
    (by decide)

/-- Claim C6: when a selected .sql file cannot be read, the whole load call
fails at once with a file-read error naming that file, and the seeds already
appended from files processed earlier in the same call remain in the
Seeder's sequence. -/
theorem LoadSeeds_file_error_partial (s : Seeder) (pre : List Entry)
    (f : Entry) (post : List Entry) (err : GoErr)
    (hpre : ∀ e ∈ pre, goExt e.name = ".sql" → e.readable = true)
    (hsql : goExt f.name = ".sql") (hc : f.content = .error err) :
    LoadSeeds s (.ok (pre ++ f :: post)) =
      (some (.wrap ("failed to parse seed file " ++ f.name) err),
        ⟨s.seeds ++ okSeeds pre⟩) ∧
    (GoErr.wrap ("failed to parse seed file " ++ f.name) err).mentions
      f.name := by
  constructor
  · simp [LoadSeeds, loadLoop_stops_at_error pre f post err hpre hsql hc
      s.seeds]
  · exact GoErr.mentions_wrap _ _ _
      (name_infix_append "failed to parse seed file " f.name)

/-- Witness for C6 at a concrete Seeder and directory. -/
theorem LoadSeeds_file_error_partial_witness :
    LoadSeeds ⟨[]⟩ (.ok ([⟨"a.sql", .ok "A"⟩] ++
        ⟨"b.sql", .error (.base "permission denied")⟩ :: [⟨"c.sql", .ok "C"⟩])) =
      (some (.wrap ("failed to parse seed file " ++ "b.sql")
          (.base "permission denied")),
        ⟨(Seeder.mk []).seeds ++ okSeeds [⟨"a.sql", .ok "A"⟩]⟩) ∧
    (GoErr.wrap ("failed to parse seed file " ++ "b.sql")
      (.base "permission denied")).mentions "b.sql" :=
  LoadSeeds_file_error_partial ⟨[]⟩ [⟨"a.sql", .ok "A"⟩]
    ⟨"b.sql", .error (.base "permission denied")⟩ [⟨"c.sql", .ok "C"⟩]
    (.base "permission denied") (by decide) (by decide) rfl

/-- Claim C9: every load call that returns success leaves the Seeder's
entire seeds sequence — including seeds accumulated by earlier load calls —
sorted ascending by name. -/
theorem LoadSeeds_success_sorted (s : Seeder) (dir : Except GoErr (List Entry))
    (s2 : Seeder) (h : LoadSeeds s dir = (none, s2)) :
    List.Sorted seedLE s2.seeds := by
  cases dir with
  | error e => simp [LoadSeeds] at h
  | ok files =>
    rw [LoadSeeds] at h
    cases hl : loadLoop s.seeds files with
    | mk oe sds =>
      rw [hl] at h
      cases oe with
      | some e => simp at h
      | none =>
        simp at h
        rw [← h]
        exact List.sorted_insertionSort seedLE sds

/-- Witness for C9 at a concrete load call. -/
theorem LoadSeeds_success_sorted_witness :
    List.Sorted seedLE (Seeder.mk
      [⟨"a.sql", "A"⟩, ⟨"b.sql", "B"⟩]).seeds :=
  LoadSeeds_success_sorted ⟨[]⟩
    (.ok [⟨"b.sql", .ok "B"⟩, ⟨"a.sql", .ok "A"⟩])
    ⟨[⟨"a.sql", "A"⟩, ⟨"b.sql", "B"⟩]⟩ (by decide)

/-- The names of the seeds a directory contributes form a sublist of the
entry names. -/
theorem okSeeds_names_sublist (entries : List Entry) :
    ((okSeeds entries).map Seed.Name).Sublist (entries.map Entry.name) := by
  induction entries with
  | nil => simp [okSeeds]
  | cons f rest ih =>
    by_cases hsql : goExt f.name = ".sql"
    · cases hc : f.content with
      | ok c =>
        rw [okSeeds_cons_sql_ok f rest c hsql hc, List.map_cons,
          List.map_cons]
        exact ih.cons₂ f.name
      | error e =>
        rw [okSeeds_cons_sql_err f rest e hsql hc, List.map_cons]
        exact ih.cons f.name
    · rw [okSeeds_cons_not_sql f rest hsql, List.map_cons]
      exact ih.cons f.name

/-- On readable directories, the names of the contributed seeds are exactly
the names of the entries whose extension is ".sql", in order. -/
theorem okSeeds_names_eq_filter (entries : List Entry)
    (h : ∀ e ∈ entries, goExt e.name = ".sql" → e.readable = true) :
    (okSeeds entries).map Seed.Name =
      (entries.filter fun e => goExt e.name == ".sql").map Entry.name := by
  induction entries with
  | nil => simp [okSeeds]
  | cons f rest ih =>
    have hrest : ∀ e ∈ rest, goExt e.name = ".sql" → e.readable = true :=
      fun e he hx => h e (by simp [he]) hx
    by_cases hsql : goExt f.name = ".sql"
    · have hr : f.readable = true := h f (by simp) hsql
      cases hc : f.content with
      | error err => simp [Entry.readable, hc] at hr
      | ok c =>
        rw [okSeeds_cons_sql_ok f rest c hsql hc, List.map_cons,
          List.filter_cons]
        simp only [hsql, beq_self_eq_true, if_true, List.map_cons]
        rw [ih hrest]
    · rw [okSeeds_cons_not_sql f rest hsql, List.filter_cons]
      have hb : (goExt f.name == ".sql") = false := by
        simpa using hsql
      simp only [hb, Bool.false_eq_true, if_false]
      exact ih hrest

/-- Claim C7: load contributes a Seed for exactly the entries whose
extension is exactly ".sql" (case-sensitively): the names of the loaded
seeds are a permutation of the names of the .sql entries, so no entry with
any other extension contributes, and the loop never descends into further
directories — it only ever consumes the one entry list ReadDir returned. -/
theorem LoadSeeds_selects_exactly_sql (entries : List Entry)
    (h : ∀ e ∈ entries, goExt e.name = ".sql" → e.readable = true) :
    ((LoadSeeds ⟨[]⟩ (.ok entries)).2.seeds.map Seed.Name).Perm
      ((entries.filter fun e => goExt e.name == ".sql").map Entry.name) := by
  have hres : LoadSeeds ⟨[]⟩ (.ok entries) =
      (none, ⟨sortSeeds (okSeeds entries)⟩) := by
    have := loadLoop_all_ok entries h []
    simp [LoadSeeds, this]
  rw [hres]
  have hperm : (sortSeeds (okSeeds entries)).Perm (okSeeds entries) :=
    List.perm_insertionSort seedLE _
  have := hperm.map Seed.Name
  rw [okSeeds_names_eq_filter entries h] at this
  exact this

/-- Witness for C7 on a directory mixing .sql files, a readme.txt, a
seed.sql.bak and an upper-case c.SQL. -/
theorem LoadSeeds_selects_exactly_sql_witness :
    ((LoadSeeds ⟨[]⟩ (.ok [⟨"readme.txt", .ok "T"⟩, ⟨"b.sql", .ok "B"⟩,
        ⟨"seed.sql.bak", .ok "K"⟩, ⟨"a.sql", .ok "A"⟩,
        ⟨"c.SQL", .ok "C"⟩])).2.seeds.map Seed.Name).Perm
      (([⟨"readme.txt", .ok "T"⟩, ⟨"b.sql", .ok "B"⟩,
        ⟨"seed.sql.bak", .ok "K"⟩, ⟨"a.sql", .ok "A"⟩,
        ⟨"c.SQL", .ok "C"⟩].filter
          fun e => goExt e.name == ".sql").map Entry.name) :=
  LoadSeeds_selects_exactly_sql [⟨"readme.txt", .ok "T"⟩, ⟨"b.sql", .ok "B"⟩,
    ⟨"seed.sql.bak", .ok "K"⟩, ⟨"a.sql", .ok "A"⟩, ⟨"c.SQL", .ok "C"⟩]
    (by decide)

/-- A list of seeds with pairwise distinct names is strictly ascending
after sorting. -/
theorem sortSeeds_strict (l : List Seed) (h : (l.map Seed.Name).Nodup) :
    List.Pairwise seedLT (sortSeeds l) := by
  have hs : List.Sorted seedLE (sortSeeds l) :=
    List.sorted_insertionSort seedLE l
  have hperm : (sortSeeds l).Perm l := List.perm_insertionSort seedLE l
  have hnd : ((sortSeeds l).map Seed.Name).Nodup :=
    ((hperm.map Seed.Name).nodup_iff).mpr h
  have hpne : List.Pairwise (fun a b : Seed => a.Name ≠ b.Name) (sortSeeds l) :=
    List.pairwise_map.mp hnd
  exact (hs.and hpne).imp fun hab =>
    lt_of_le_of_ne hab.1 fun hd => hab.2 (String.ext hd)

/-- Claim C2: on a fresh Seeder, loading a directory of distinct-named
readable files yields a seeds sequence that is strictly ascending by name,
and the result does not depend on the order in which the filesystem
enumerated the entries: any permutation of the entry list produces the very
same LoadSeeds result. -/
theorem LoadSeeds_fresh_sorted_indep (entries : List Entry)
    (hok : ∀ e ∈ entries, goExt e.name = ".sql" → e.readable = true)
    (hnd : (entries.map Entry.name).Nodup) :
    List.Pairwise seedLT (LoadSeeds ⟨[]⟩ (.ok entries)).2.seeds ∧
    ∀ entries2, entries2.Perm entries →
      LoadSeeds ⟨[]⟩ (.ok entries2) = LoadSeeds ⟨[]⟩ (.ok entries) := by
  have hres : LoadSeeds ⟨[]⟩ (.ok entries) =
      (none, ⟨sortSeeds (okSeeds entries)⟩) := by
    have := loadLoop_all_ok entries hok []
    simp [LoadSeeds, this]
  constructor
  · rw [hres]
    exact sortSeeds_strict _
      (List.Nodup.sublist (okSeeds_names_sublist entries) hnd)
  · intro entries2 hp
    have hok2 : ∀ e ∈ entries2, goExt e.name = ".sql" → e.readable = true :=
      fun e he hx => hok e (hp.subset he) hx
    have hnd2 : (entries2.map Entry.name).Nodup :=
      ((hp.map Entry.name).nodup_iff).mpr hnd
    have hres2 : LoadSeeds ⟨[]⟩ (.ok entries2) =
        (none, ⟨sortSeeds (okSeeds entries2)⟩) := by
      have := loadLoop_all_ok entries2 hok2 []
      simp [LoadSeeds, this]
    rw [hres, hres2]
    have hpo : (okSeeds entries2).Perm (okSeeds entries) :=
      List.Perm.filterMap _ hp
    have h1 : List.Pairwise seedLT (sortSeeds (okSeeds entries2)) :=
      sortSeeds_strict _
        (List.Nodup.sublist (okSeeds_names_sublist entries2) hnd2)
    have h2 : List.Pairwise seedLT (sortSeeds (okSeeds entries)) :=
      sortSeeds_strict _
        (List.Nodup.sublist (okSeeds_names_sublist entries) hnd)
    have hperm : (sortSeeds (okSeeds entries2)).Perm
        (sortSeeds (okSeeds entries)) :=
      (List.perm_insertionSort seedLE _).trans
        (hpo.trans (List.perm_insertionSort seedLE _).symm)
    rw [List.eq_of_perm_of_sorted hperm h1 h2]

/-- Witness for C2: a concrete directory listed in non-sorted order gives a
strictly ascending result, and the same result arrives when the filesystem
enumerates the entries with the first two swapped. -/
theorem LoadSeeds_fresh_sorted_indep_witness :
    List.Pairwise seedLT (LoadSeeds ⟨[]⟩
      (.ok [⟨"b.sql", .ok "B"⟩, ⟨"a.sql", .ok "A"⟩,
        ⟨"readme.txt", .ok "T"⟩])).2.seeds ∧
    LoadSeeds ⟨[]⟩ (.ok [⟨"a.sql", .ok "A"⟩, ⟨"b.sql", .ok "B"⟩,
        ⟨"readme.txt", .ok "T"⟩]) =
      LoadSeeds ⟨[]⟩ (.ok [⟨"b.sql", .ok "B"⟩, ⟨"a.sql", .ok "A"⟩,
        ⟨"readme.txt", .ok "T"⟩]) := by
  have h := LoadSeeds_fresh_sorted_indep
    [⟨"b.sql", .ok "B"⟩, ⟨"a.sql", .ok "A"⟩, ⟨"readme.txt", .ok "T"⟩]
    (by decide) (by decide)
  exact ⟨h.1, h.2 _ (List.Perm.swap _ _ _)⟩

/-- A fully successful run's trace is the seed names in stored order. -/
theorem seedLoop_success_trace {σ : Type} (db : DBModel σ) :
    ∀ (l : List Seed) (c c2 : σ) (tr : List String),
      seedLoop db c l = (none, c2, tr) → tr = l.map Seed.Name := by
  intro l
  induction l with
  | nil =>
    intro c c2 tr h
    simp [seedLoop] at h
    simp [h.2.symm]
  | cons sd rest ih =>
    intro c c2 tr h
    simp only [seedLoop] at h
    cases hx : executeSeed db c sd with
    | error e => rw [hx] at h; simp at h
    | ok c3 =>
      simp only [hx] at h
      cases hr : seedLoop db c3 rest with
      | mk o pr =>
        obtain ⟨c4, tr2⟩ := pr
        rw [hr] at h
        simp at h
        obtain ⟨ho, _, htr⟩ := h
        rw [← htr, List.map_cons, ih c3 c4 tr2 (by rw [hr, ho])]

/-- Running a concatenation: once the first part fully succeeds, the run
continues on the second part from the reached state, with the traces
concatenated. -/
theorem seedLoop_append {σ : Type} (db : DBModel σ) (pre rest : List Seed) :
    ∀ (c c2 : σ) (tr : List String), seedLoop db c pre = (none, c2, tr) →
      seedLoop db c (pre ++ rest) =
        ((seedLoop db c2 rest).1, (seedLoop db c2 rest).2.1,
          tr ++ (seedLoop db c2 rest).2.2) := by
  induction pre with
  | nil =>
    intro c c2 tr h
    simp [seedLoop] at h
    obtain ⟨rfl, rfl⟩ := h
    simp
  | cons sd p ih =>
    intro c c2 tr h
    simp only [seedLoop] at h
    rw [List.cons_append]
    simp only [seedLoop]
    cases hx : executeSeed db c sd with
    | error e => rw [hx] at h; simp at h
    | ok c3 =>
      simp only [hx] at h ⊢
      cases hr : seedLoop db c3 p with
      | mk o pr =>
        obtain ⟨c4, tr2⟩ := pr
        rw [hr] at h
        simp at h
        obtain ⟨ho, hc4, htr⟩ := h
        rw [ih c3 c2 tr2 (by rw [hr, ho, hc4]), ← htr]
        simp

/-- Claim C1, counterexample: when the database refuses to start the
transaction for the first Seed, the run aborts with an error that does not
name the failing Seed — the begin failure is wrapped only as a
transaction-start error. -/
theorem run_begin_failure_error_lacks_seed_name :
    (Seeder.Seed ⟨[⟨"001_users.sql", "INSERT"⟩]⟩ dbBeginFail 0).1.1 =
      some (.wrap "error starting transaction" (.base "db down")) ∧
    ¬ (GoErr.wrap "error starting transaction"
        (.base "db down")).mentions "001_users.sql" := by
  exact ⟨rfl, by decide⟩

/-- Claim C1 as amended: run() invokes the Transaction Executor on each
Seed in stored order and the first failure aborts the run: the executor's
error is returned as is, the executor is invoked exactly on the seeds up to
and including the failing one, the committed state stays the one the
earlier seeds produced (nothing is undone), and whenever the failure is not
the transaction start itself — i.e. the begin succeeded and the failure
arose in execution or commit — the returned error names the failing Seed.
A begin failure aborts in the same way but its error carries no seed
name. -/
theorem run_aborts_at_first_failure {σ : Type} (db : DBModel σ) (s : Seeder)
    (pre : List Seed) (f : Seed) (post : List Seed) (c c2 : σ)
    (tr : List String) (e : GoErr) (hseeds : s.seeds = pre ++ f :: post)
    (hpre : seedLoop db c pre = (none, c2, tr))
    (hf : executeSeed db c2 f = .error e) :
    (Seeder.Seed s db c).1 = (some e, c2, pre.map Seed.Name ++ [f.Name]) ∧
    (∀ t, db.begin c2 = .ok t → e.mentions f.Name) := by
  constructor
  · have htr : tr = pre.map Seed.Name :=
      seedLoop_success_trace db pre c c2 tr hpre
    have hrun : (Seeder.Seed s db c).1 = seedLoop db c s.seeds := rfl
    rw [hrun, hseeds, seedLoop_append db pre (f :: post) c c2 tr hpre]
    simp only [seedLoop, hf, htr]
  · intro t hb
    simp only [executeSeed, hb] at hf
    cases hx : db.exec f.SQL t with
    | error e2 =>
      simp only [hx] at hf
      simp at hf
      rw [← hf]
      exact GoErr.mentions_wrap _ _ _
        (name_infix_append "error executing seed " f.Name)
    | ok t2 =>
      simp only [hx] at hf
      cases hcm : db.commit t2 with
      | error e3 =>
        simp only [hcm] at hf
        simp at hf
        rw [← hf]
        exact GoErr.mentions_wrap _ _ _
          (name_infix_append "error committing seed " f.Name)
      | ok c3 => simp [hcm] at hf

/-- Witness for C1's amended theorem: a three-seed run over the demo
database commits the first seed, fails on the second, and never reaches the
third. -/
theorem run_aborts_at_first_failure_witness :
    (Seeder.Seed ⟨[⟨"001_users.sql", "U"⟩, ⟨"002_posts.sql", "P"⟩,
        ⟨"003_tags.sql", "T"⟩]⟩ dbRunDemo []).1 =
      (some (.wrap ("error executing seed " ++ "002_posts.sql")
          (.base "bad column")), ["U"],
        [(⟨"001_users.sql", "U"⟩ : Seed)].map Seed.Name ++
          ["002_posts.sql"]) ∧
    (∀ t, dbRunDemo.begin ["U"] = .ok t →
      (GoErr.wrap ("error executing seed " ++ "002_posts.sql")
        (.base "bad column")).mentions "002_posts.sql") :=
  run_aborts_at_first_failure dbRunDemo
    ⟨[⟨"001_users.sql", "U"⟩, ⟨"002_posts.sql", "P"⟩, ⟨"003_tags.sql", "T"⟩]⟩
    [⟨"001_users.sql", "U"⟩] ⟨"002_posts.sql", "P"⟩ [⟨"003_tags.sql", "T"⟩]
    [] ["U"] ["001_users.sql"]
    (.wrap ("error executing seed " ++ "002_posts.sql") (.base "bad column"))
    rfl (by decide) (by rfl)

end GravLsm
